import Mathlib

/-!
Verification of the StackStorm action-execution scheduling queue handler
(`st2actions/st2actions/scheduler/handler.py`).

The handler is embedded shallowly:

* Timestamps are `Int` milliseconds (the code manipulates UTC datetimes only
  through `get_datetime_utc_now` and `append_milliseconds_to_time`).
* The scheduling-queue store (`ActionExecutionSchedulingQueue`, which lives in
  `st2common` outside the scheduler module) is modelled as a list of items with
  an optimistic-concurrency revision token, per the spec's store contract:
  `add_or_update` is a CAS keyed on the revision that either commits and
  advances the token or fails with a write conflict leaving the store
  untouched.
* Side effects on the live-action store and the message bus
  (`action_service.update_status`, `LiveAction.publish_status`, queue deletes
  and writes) are recorded as an event trace in program order.
-/

/-- Modelled from the spec: the closed live-action status vocabulary of
`st2common.constants.action` (not under the scheduler module). The spec lists
requested, scheduled, delayed, policy_delayed, canceling, canceled, succeeded,
failed, timeout, abandoned, expired, and leaves room for further in-flight
statuses such as running/pausing/paused/resuming. -/
inductive LAStatus where
  | requested
  | scheduled
  | delayed
  | policy_delayed
  | running
  | canceling
  | canceled
  | succeeded
  | failed
  | timeout
  | abandoned
  | expired
  | pausing
  | paused
  | resuming
  deriving DecidableEq, Repr, Fintype

/-- Modelled from the spec: `LIVEACTION_COMPLETED_STATES` of
`st2common.constants.action` — the terminal statuses. -/
def LIVEACTION_COMPLETED_STATES : List LAStatus :=
  [.succeeded, .failed, .timeout, .canceled, .abandoned, .expired]

/-- Modelled from the spec: `LIVEACTION_CANCEL_STATES` of
`st2common.constants.action`. -/
def LIVEACTION_CANCEL_STATES : List LAStatus :=
  [.canceling, .canceled]

/-- A live-action record, as far as the scheduler reads it: identity and
status. -/
structure LiveAction where
  id : Nat
  status : LAStatus
  deriving DecidableEq, Repr

/-- An `ActionExecutionSchedulingQueueItemDB` document. `last_updated` is the
document's last-update time; the handler itself never reads it (its GC query
keys on `scheduled_start_timestamp`), it is carried so that properties stated
in terms of the last-update time can be expressed. `revision` is the
optimistic-concurrency token of the store. -/
structure QueueItem where
  id : Nat
  liveaction_id : Nat
  scheduled_start_timestamp : Int
  handling : Bool
  last_updated : Int
  revision : Nat
  deriving DecidableEq, Repr

/-- The scheduling-queue store: the collection of queue items. -/
abbrev Store := List QueueItem

/-- Look up the (first) stored item with the given id. -/
def find_item (s : Store) (id : Nat) : Option QueueItem :=
  s.find? (fun it => it.id == id)

/-- Replace every stored item carrying `v.id` by `v`. -/
def replace_by_id (s : Store) (v : QueueItem) : Store :=
  s.map (fun it => if it.id == v.id then v else it)

/-- Store errors surfaced to the handler. -/
inductive DBError where
  | writeConflict
  | notFound
  deriving DecidableEq, Repr

/-- Modelled from the spec: `ActionExecutionSchedulingQueue.add_or_update`
(`st2common` persistence, not under the scheduler module). A CAS keyed on the
revision token: it commits and advances the token, or fails with
`writeConflict` when the caller's token is stale, leaving the store
untouched. -/
def add_or_update (s : Store) (v : QueueItem) : Except DBError Store :=
  match find_item s v.id with
  | none => .ok (s ++ [{ v with revision := v.revision + 1 }])
  | some cur =>
    if cur.revision == v.revision then
      .ok (replace_by_id s { v with revision := v.revision + 1 })
    else
      .error .writeConflict

/-- Modelled from the spec: `ActionExecutionSchedulingQueue.delete` removes
the item (by id). -/
def queue_delete (s : Store) (v : QueueItem) : Store :=
  s.filter (fun it => !(it.id == v.id))

/-- Embedding of `st2common.util.date.append_milliseconds_to_time`. -/
def append_milliseconds_to_time (t : Int) (ms : Int) : Int :=
  t + ms

/-- Constant `EXECUTION_SCHEDUELING_TIMEOUT_THRESHOLD_MS` (sic) from the handler. -/
def EXECUTION_SCHEDUELING_TIMEOUT_THRESHOLD_MS : Int := 60 * 1000

/-- Constant `POLICY_DELAYED_EXECUTION_RESCHEDULE_TIME_MS` from the handler. -/
def POLICY_DELAYED_EXECUTION_RESCHEDULE_TIME_MS : Int := 1500

/-- The qualification test of `_get_next_execution`'s query:
`scheduled_start_timestamp__lte = now` and `handling = False`. -/
def ready_pred (now : Int) (it : QueueItem) : Bool :=
  !it.handling && decide (it.scheduled_start_timestamp ≤ now)

/-- Keep the earlier item unless the later one has a strictly smaller
timestamp. -/
def min_ts_step (a b : QueueItem) : QueueItem :=
  if b.scheduled_start_timestamp < a.scheduled_start_timestamp then b else a

/-- First element of minimal `scheduled_start_timestamp` (the store's
`order_by +scheduled_start_timestamp, limit 1 … first()`; ties resolve to the
earliest-inserted item). -/
def min_by_ts : List QueueItem → Option QueueItem
  | [] => none
  | x :: xs => some (xs.foldl min_ts_step x)

/-- The query issued by `_get_next_execution`: items with `handling=false` and
`scheduled_start_timestamp ≤ now`, ordered by ascending timestamp, first
one. -/
def query_ready (s : Store) (now : Int) : Option QueueItem :=
  min_by_ts (s.filter (ready_pred now))

/-- Embedding of `_get_next_execution`: query the next ready item, flip `handling` to true
and CAS it in; on a write conflict another scheduler won and `none` is
returned with the store unchanged. -/
def get_next_execution (s : Store) (now : Int) : Option QueueItem × Store :=
  match query_ready s now with
  | none => (none, s)
  | some it =>
    match add_or_update s { it with handling := true } with
    | .ok s2 => (some { it with handling := true }, s2)
    | .error _ => (none, s)

/-- One tick of `run`: a worker is spawned exactly when `_get_next_execution`
returns an item. -/
def run_tick_spawns (s : Store) (now : Int) : Bool :=
  (get_next_execution s now).1.isSome

/-- The stuck-item test of `_handle_garbage_collection`'s query:
`scheduled_start_timestamp__lte = now - threshold` and `handling = True`. -/
def stuck_pred (now : Int) (it : QueueItem) : Bool :=
  it.handling &&
    decide (it.scheduled_start_timestamp ≤
      append_milliseconds_to_time now (-EXECUTION_SCHEDUELING_TIMEOUT_THRESHOLD_MS))

/-- One iteration of the garbage-collection loop: set `handling` to `false`
and `add_or_update` (publish=false); a write conflict is logged and leaves the
store as it was. -/
def gc_step (acc : Store) (it : QueueItem) : Store :=
  match add_or_update acc { it with handling := false } with
  | .ok acc2 => acc2
  | .error _ => acc

/-- Embedding of `_handle_garbage_collection`: query items stuck in `handling=true`, reset
each to `handling=false` via `add_or_update` (publish=false); a write conflict
on one item is logged and the loop continues with the rest. -/
def handle_garbage_collection (s : Store) (now : Int) : Store :=
  let stuck := s.filter (stuck_pred now)
  stuck.foldl gc_step s

/-- Observable side effects of a dispatch, in program order. -/
inductive Event where
  | updateStatus (liveaction_id : Nat) (newStatus : LAStatus) (publish : Bool)
  | publishStatus (liveaction_id : Nat) (status : LAStatus)
  | queueWrite (item_id : Nat) (publish : Bool)
  | queueDelete (item_id : Nat)
  deriving DecidableEq, Repr

/-- Result of `_apply_pre_run`: the live-action to continue with (or `none`),
the queue store after its effects, and the emitted events. -/
structure PreRunResult where
  liveaction : Option LiveAction
  store : Store
  events : List Event
  deriving Repr

/-- The queue-item rewrite of the policy-delayed branch: push
`scheduled_start_timestamp` 1500 ms past `now`; the other fields — `handling`
included — are carried over as-is, exactly as the source mutates only that
one attribute before saving. -/
def reschedule_item (item : QueueItem) (now : Int) : QueueItem :=
  { item with
    scheduled_start_timestamp :=
      append_milliseconds_to_time now POLICY_DELAYED_EXECUTION_RESCHEDULE_TIME_MS }

/-- Embedding of `_apply_pre_run`: apply pre-run policies; on `policy_delayed`,
set the live-action to `delayed` (publish=false), push the item's
`scheduled_start_timestamp` 1500 ms into the future and CAS-write it
(publish=false), swallowing a write conflict; on a completed/cancel status,
delete the item; otherwise hand the live-action back. -/
def apply_pre_run (la0 : LiveAction) (item : QueueItem) (now : Int) (qs : Store)
    (policies : LiveAction → LiveAction) : PreRunResult :=
  if (policies la0).status = .policy_delayed then
    match add_or_update qs (reschedule_item item now) with
    | .ok qs2 =>
      ⟨none, qs2,
        [Event.updateStatus (policies la0).id .delayed false, Event.queueWrite item.id false]⟩
    | .error _ => ⟨none, qs, [Event.updateStatus (policies la0).id .delayed false]⟩
  else if (policies la0).status ∈ LIVEACTION_COMPLETED_STATES ∨
      (policies la0).status ∈ LIVEACTION_CANCEL_STATES then
    ⟨none, queue_delete qs item, [Event.queueDelete item.id]⟩
  else
    ⟨some (policies la0), qs, []⟩

/-- The `valid_status` list of `_is_execution_queue_item_runnable`. -/
def valid_status : List LAStatus :=
  [.requested, .scheduled, .delayed]

/-- Embedding of `_is_execution_queue_item_runnable`: `true` when the status is in
`valid_status`; otherwise the queue item is deleted and `false` returned. -/
def is_execution_queue_item_runnable (la : LiveAction) (item : QueueItem) (qs : Store) :
    Bool × Store × List Event :=
  if la.status ∈ valid_status then
    (true, qs, [])
  else
    (false, queue_delete qs item, [Event.queueDelete item.id])

/-- Result of `_update_to_scheduled`. -/
structure SchedResult where
  liveaction : LiveAction
  store : Store
  events : List Event
  deriving Repr

/-- Embedding of `_update_to_scheduled`: move a requested/delayed live-action to
`scheduled` (publish=false), then publish the status explicitly, and only then
delete the queue entry. -/
def update_to_scheduled (la : LiveAction) (item : QueueItem) (qs : Store) : SchedResult :=
  if la.status = .requested ∨ la.status = .delayed then
    ⟨{ la with status := .scheduled }, queue_delete qs item,
      [Event.updateStatus la.id .scheduled false,
       Event.publishStatus la.id .scheduled, Event.queueDelete item.id]⟩
  else
    ⟨la, queue_delete qs item,
      [Event.publishStatus la.id la.status, Event.queueDelete item.id]⟩

/-- Result of `_handle_execution`: the queue store, the event trace, and the
exception re-raised to the instrumentation wrapper, if any. -/
structure DispatchResult where
  store : Store
  events : List Event
  raised : Option DBError
  deriving Repr

/-- Embedding of `_handle_execution`: look the live-action up (a miss deletes the item and
re-raises), run `_apply_pre_run`, and when the item is still runnable finish
with `_update_to_scheduled`. `lookup` is the result of
`action_utils.get_liveaction_by_id`. -/
def handle_execution (lookup : Option LiveAction) (policies : LiveAction → LiveAction)
    (item : QueueItem) (now : Int) (qs : Store) : DispatchResult :=
  match lookup with
  | none => ⟨queue_delete qs item, [], some .notFound⟩
  | some la0 =>
    match apply_pre_run la0 item now qs policies with
    | ⟨none, qs1, evs1⟩ => ⟨qs1, evs1, none⟩
    | ⟨some la, qs1, evs1⟩ =>
      match is_execution_queue_item_runnable la item qs1 with
      | (true, qs2, evs2) =>
        ⟨(update_to_scheduled la item qs2).store,
          evs1 ++ evs2 ++ (update_to_scheduled la item qs2).events, none⟩
      | (false, qs2, evs2) => ⟨qs2, evs1 ++ evs2, none⟩

/-- Scan used to state publish-before-delete: every `queueDelete` in the trace
is preceded by some `publishStatus`. -/
def deletes_after_publish : List Event → Bool → Bool
  | [], _ => true
  | .publishStatus _ _ :: rest, _ => deletes_after_publish rest true
  | .queueDelete _ :: rest, seen => seen && deletes_after_publish rest seen
  | _ :: rest, seen => deletes_after_publish rest seen

/-- Publish-before-delete over a whole trace. -/
def publish_precedes_deletes (evs : List Event) : Bool :=
  deletes_after_publish evs false

/-- Ids are pairwise distinct in the store. -/
abbrev uniqueIds (s : Store) : Prop :=
  s.Pairwise (fun a b => a.id ≠ b.id)

/-! ## Store lemmas -/

theorem find_item_mem {s : Store} {id : Nat} {it : QueueItem}
    (h : find_item s id = some it) : it ∈ s ∧ it.id = id := by
  refine ⟨List.mem_of_find?_eq_some h, ?_⟩
  have := List.find?_some h
  simpa using this

theorem find_item_eq_none {s : Store} {id : Nat} :
    find_item s id = none ↔ ∀ it ∈ s, it.id ≠ id := by
  unfold find_item
  rw [List.find?_eq_none]
  constructor
  · intro h it hm
    have := h it hm
    simpa using this
  · intro h it hm
    simpa using h it hm

theorem mem_find_of_unique {s : Store} (hu : uniqueIds s) {it : QueueItem}
    (hm : it ∈ s) : find_item s it.id = some it := by
  induction s with
  | nil => cases hm
  | cons h t ih =>
    rcases List.mem_cons.mp hm with rfl | hm'
    · simp [find_item]
    · have hne : h.id ≠ it.id := (List.pairwise_cons.mp hu).1 it hm'
      have ht : uniqueIds t := (List.pairwise_cons.mp hu).2
      unfold find_item
      rw [List.find?_cons_of_neg]
      · exact ih ht hm'
      · simp [hne]

theorem find_replace_self {s : Store} {v cur : QueueItem}
    (h : find_item s v.id = some cur) :
    find_item (replace_by_id s v) v.id = some v := by
  induction s with
  | nil => simp [find_item] at h
  | cons a t ih =>
    by_cases ha : a.id = v.id
    · have hcons : replace_by_id (a :: t) v = v :: replace_by_id t v := by
        simp [replace_by_id, ha]
      rw [hcons]
      unfold find_item
      exact List.find?_cons_of_pos _ (by simp)
    · have hcons : replace_by_id (a :: t) v = a :: replace_by_id t v := by
        simp [replace_by_id, ha]
      have h' : find_item t v.id = some cur := by
        unfold find_item at h ⊢
        rwa [List.find?_cons_of_neg _ (by simp [ha])] at h
      rw [hcons]
      unfold find_item at ih ⊢
      rw [List.find?_cons_of_neg _ (by simp [ha])]
      exact ih h'

theorem find_replace_other {s : Store} {v : QueueItem} {id : Nat}
    (hne : id ≠ v.id) :
    find_item (replace_by_id s v) id = find_item s id := by
  induction s with
  | nil => simp [replace_by_id, find_item]
  | cons a t ih =>
    by_cases ha : a.id = v.id
    · have hcons : replace_by_id (a :: t) v = v :: replace_by_id t v := by
        simp [replace_by_id, ha]
      rw [hcons]
      unfold find_item at ih ⊢
      rw [List.find?_cons_of_neg _ (by simp [Ne.symm hne]),
          List.find?_cons_of_neg _ (by simp [ha, Ne.symm hne])]
      exact ih
    · have hcons : replace_by_id (a :: t) v = a :: replace_by_id t v := by
        simp [replace_by_id, ha]
      rw [hcons]
      by_cases hid : a.id = id
      · unfold find_item
        rw [List.find?_cons_of_pos _ (by simp [hid]), List.find?_cons_of_pos _ (by simp [hid])]
      · unfold find_item at ih ⊢
        rw [List.find?_cons_of_neg _ (by simp [hid]), List.find?_cons_of_neg _ (by simp [hid])]
        exact ih

theorem add_or_update_eq_of_find_none {s : Store} {v : QueueItem}
    (hf : find_item s v.id = none) :
    add_or_update s v = .ok (s ++ [{ v with revision := v.revision + 1 }]) := by
  unfold add_or_update
  rw [hf]

theorem add_or_update_eq_of_find_some {s : Store} {v cur : QueueItem}
    (hf : find_item s v.id = some cur) :
    add_or_update s v =
      if cur.revision == v.revision then
        .ok (replace_by_id s { v with revision := v.revision + 1 })
      else
        .error .writeConflict := by
  unfold add_or_update
  rw [hf]

theorem add_or_update_ok_find_self {s s2 : Store} {v : QueueItem}
    (h : add_or_update s v = .ok s2) :
    find_item s2 v.id = some { v with revision := v.revision + 1 } := by
  cases hf : find_item s v.id with
  | none =>
    rw [add_or_update_eq_of_find_none hf] at h
    cases h
    unfold find_item
    rw [List.find?_append]
    have h1 : find_item s v.id = none := hf
    unfold find_item at h1
    rw [h1]
    simp
  | some cur =>
    rw [add_or_update_eq_of_find_some hf] at h
    by_cases hr : cur.revision = v.revision
    · rw [if_pos (by simp [hr])] at h
      cases h
      exact find_replace_self hf
    · rw [if_neg (by simp [hr])] at h
      cases h

theorem add_or_update_ok_find_other {s s2 : Store} {v : QueueItem} {id : Nat}
    (h : add_or_update s v = .ok s2) (hne : id ≠ v.id) :
    find_item s2 id = find_item s id := by
  cases hf : find_item s v.id with
  | none =>
    rw [add_or_update_eq_of_find_none hf] at h
    cases h
    unfold find_item
    rw [List.find?_append]
    have h2 : List.find? (fun it => it.id == id) [{ v with revision := v.revision + 1 }] = none := by
      simp [Ne.symm hne]
    rw [h2]
    simp [find_item]
  | some cur =>
    rw [add_or_update_eq_of_find_some hf] at h
    by_cases hr : cur.revision = v.revision
    · rw [if_pos (by simp [hr])] at h
      cases h
      exact find_replace_other hne
    · rw [if_neg (by simp [hr])] at h
      cases h

theorem add_or_update_of_match {s : Store} {v cur : QueueItem}
    (hf : find_item s v.id = some cur) (hr : cur.revision = v.revision) :
    add_or_update s v = .ok (replace_by_id s { v with revision := v.revision + 1 }) := by
  rw [add_or_update_eq_of_find_some hf, if_pos (by simp [hr])]

theorem add_or_update_conflict {s : Store} {v cur : QueueItem}
    (hf : find_item s v.id = some cur) (hr : cur.revision ≠ v.revision) :
    add_or_update s v = .error .writeConflict := by
  rw [add_or_update_eq_of_find_some hf, if_neg (by simp [hr])]

theorem add_or_update_cases (s : Store) (v : QueueItem) :
    (∃ s2, add_or_update s v = .ok s2) ∨ add_or_update s v = .error .writeConflict := by
  cases hf : find_item s v.id with
  | none => exact Or.inl ⟨_, add_or_update_eq_of_find_none hf⟩
  | some cur =>
    by_cases hr : cur.revision = v.revision
    · exact Or.inl ⟨_, add_or_update_of_match hf hr⟩
    · exact Or.inr (add_or_update_conflict hf hr)

theorem find_queue_delete_self (s : Store) (v : QueueItem) :
    find_item (queue_delete s v) v.id = none := by
  rw [find_item_eq_none]
  intro it hm
  have := List.of_mem_filter hm
  simpa using this

theorem mem_queue_delete {s : Store} {v it : QueueItem}
    (hm : it ∈ queue_delete s v) : it.id ≠ v.id := by
  have := List.of_mem_filter hm
  simpa using this

theorem foldl_min_ts_mem (xs : List QueueItem) (x : QueueItem) :
    xs.foldl min_ts_step x = x ∨ xs.foldl min_ts_step x ∈ xs := by
  induction xs generalizing x with
  | nil => exact Or.inl rfl
  | cons h t ih =>
    rw [List.foldl_cons]
    rcases ih (min_ts_step x h) with he | hm
    · rw [he]
      unfold min_ts_step
      by_cases hc : h.scheduled_start_timestamp < x.scheduled_start_timestamp
      · rw [if_pos hc]
        exact Or.inr (List.mem_cons_self _ _)
      · rw [if_neg hc]
        exact Or.inl rfl
    · exact Or.inr (List.mem_cons_of_mem _ hm)

theorem foldl_min_ts_le (xs : List QueueItem) (x : QueueItem) :
    (xs.foldl min_ts_step x).scheduled_start_timestamp ≤ x.scheduled_start_timestamp ∧
      ∀ y ∈ xs,
        (xs.foldl min_ts_step x).scheduled_start_timestamp ≤ y.scheduled_start_timestamp := by
  induction xs generalizing x with
  | nil =>
    refine ⟨le_refl _, ?_⟩
    intro y hy
    cases hy
  | cons h t ih =>
    rw [List.foldl_cons]
    obtain ⟨ih1, ih2⟩ := ih (min_ts_step x h)
    have hmx : (min_ts_step x h).scheduled_start_timestamp ≤ x.scheduled_start_timestamp := by
      unfold min_ts_step
      by_cases hc : h.scheduled_start_timestamp < x.scheduled_start_timestamp
      · rw [if_pos hc]
        exact le_of_lt hc
      · rw [if_neg hc]
    have hmh : (min_ts_step x h).scheduled_start_timestamp ≤ h.scheduled_start_timestamp := by
      unfold min_ts_step
      by_cases hc : h.scheduled_start_timestamp < x.scheduled_start_timestamp
      · rw [if_pos hc]
      · rw [if_neg hc]
        exact le_of_not_lt hc
    refine ⟨le_trans ih1 hmx, ?_⟩
    intro y hy
    rcases List.mem_cons.mp hy with rfl | hy'
    · exact le_trans ih1 hmh
    · exact ih2 y hy'

theorem min_by_ts_eq_none {l : List QueueItem} : min_by_ts l = none ↔ l = [] := by
  cases l <;> simp [min_by_ts]

theorem min_by_ts_spec {l : List QueueItem} {x : QueueItem} (h : min_by_ts l = some x) :
    x ∈ l ∧ ∀ y ∈ l, x.scheduled_start_timestamp ≤ y.scheduled_start_timestamp := by
  cases l with
  | nil => cases h
  | cons a t =>
    unfold min_by_ts at h
    cases h
    constructor
    · rcases foldl_min_ts_mem t a with he | hm
      · rw [he]
        exact List.mem_cons_self _ _
      · exact List.mem_cons_of_mem _ hm
    · intro y hy
      obtain ⟨h1, h2⟩ := foldl_min_ts_le t a
      rcases List.mem_cons.mp hy with rfl | hy'
      · exact h1
      · exact h2 y hy'

theorem query_ready_mem {s : Store} {now : Int} {it : QueueItem}
    (h : query_ready s now = some it) :
    it ∈ s ∧ it.handling = false ∧ it.scheduled_start_timestamp ≤ now ∧
      ∀ y ∈ s, y.handling = false → y.scheduled_start_timestamp ≤ now →
        it.scheduled_start_timestamp ≤ y.scheduled_start_timestamp := by
  unfold query_ready at h
  obtain ⟨hm, hmin⟩ := min_by_ts_spec h
  have hmem := List.mem_filter.mp hm
  have hp := hmem.2
  unfold ready_pred at hp
  simp only [Bool.and_eq_true, Bool.not_eq_true', decide_eq_true_eq] at hp
  refine ⟨hmem.1, hp.1, hp.2, ?_⟩
  intro y hy hyh hyt
  refine hmin y (List.mem_filter.mpr ⟨hy, ?_⟩)
  unfold ready_pred
  simp [hyh, hyt]

theorem query_ready_none {s : Store} {now : Int} (h : query_ready s now = none) :
    ∀ it ∈ s, it.handling = true ∨ now < it.scheduled_start_timestamp := by
  unfold query_ready at h
  rw [min_by_ts_eq_none] at h
  intro it hm
  by_contra hc
  push_neg at hc
  have hmem : it ∈ s.filter (ready_pred now) := by
    refine List.mem_filter.mpr ⟨hm, ?_⟩
    unfold ready_pred
    simp only [Bool.not_eq_true] at hc
    simp [hc.1, hc.2]
  rw [h] at hmem
  cases hmem

theorem gc_step_ok {s s2 : Store} {it : QueueItem}
    (h : add_or_update s { it with handling := false } = .ok s2) :
    gc_step s it = s2 := by
  unfold gc_step
  rw [h]

theorem gc_step_err {s : Store} {it : QueueItem} {e : DBError}
    (h : add_or_update s { it with handling := false } = .error e) :
    gc_step s it = s := by
  unfold gc_step
  rw [h]

theorem gc_fold_frame (l : List QueueItem) (s : Store) (id : Nat)
    (hl : ∀ it ∈ l, it.id ≠ id) :
    find_item (l.foldl gc_step s) id = find_item s id := by
  induction l generalizing s with
  | nil => rfl
  | cons h t ih =>
    rw [List.foldl_cons]
    have hh : h.id ≠ id := hl h (List.mem_cons_self _ _)
    have ht : ∀ it ∈ t, it.id ≠ id := fun it hm => hl it (List.mem_cons_of_mem _ hm)
    rw [ih _ ht]
    cases hw : add_or_update s { h with handling := false } with
    | ok s2 =>
      rw [gc_step_ok hw]
      exact add_or_update_ok_find_other hw (Ne.symm hh)
    | error e =>
      rw [gc_step_err hw]

theorem gc_fold_effect (l : List QueueItem) (s : Store)
    (hvalid : ∀ it ∈ l, find_item s it.id = some it)
    (hdist : l.Pairwise (fun a b => a.id ≠ b.id)) :
    ∀ it ∈ l, find_item (l.foldl gc_step s) it.id =
      some { it with handling := false, revision := it.revision + 1 } := by
  induction l generalizing s with
  | nil =>
    intro it hm
    cases hm
  | cons h t ih =>
    intro it hm
    rw [List.foldl_cons]
    have hfh : find_item s h.id = some h := hvalid h (List.mem_cons_self _ _)
    have hok : add_or_update s { h with handling := false } =
        .ok (replace_by_id s { h with handling := false, revision := h.revision + 1 }) :=
      add_or_update_of_match hfh rfl
    have hpair := List.pairwise_cons.mp hdist
    rcases List.mem_cons.mp hm with rfl | hm'
    · have hframe : ∀ it' ∈ t, it'.id ≠ it.id := fun it' hm' => (hpair.1 it' hm').symm
      rw [gc_fold_frame t _ _ hframe, gc_step_ok hok]
      exact add_or_update_ok_find_self hok
    · have hvalid' : ∀ it' ∈ t, find_item (gc_step s h) it'.id = some it' := by
        intro it' hm''
        rw [gc_step_ok hok, add_or_update_ok_find_other hok (Ne.symm (hpair.1 it' hm''))]
        exact hvalid it' (List.mem_cons_of_mem _ hm'')
      exact ih (gc_step s h) hvalid' hpair.2 it hm'

theorem unique_mem_eq {s : Store} (hu : uniqueIds s) {a b : QueueItem}
    (ha : a ∈ s) (hb : b ∈ s) (hid : a.id = b.id) : a = b := by
  have h1 := mem_find_of_unique hu ha
  have h2 := mem_find_of_unique hu hb
  rw [hid] at h1
  rw [h1] at h2
  injection h2 with h3


/-! ## Claim theorems -/

/-- Claim C6, counterexample: an item whose `last_updated` is far in the past
(0 ≤ now − 60 s) but whose `scheduled_start_timestamp` is recent is NOT reset
by a GC tick — the GC query keys on `scheduled_start_timestamp`, not on a
last-update timestamp, so the item keeps `handling = true`. -/
theorem C6_gc_last_update_counterexample :
    (QueueItem.mk 1 7 95000 true 0 0).handling = true ∧
      (QueueItem.mk 1 7 95000 true 0 0).last_updated ≤ 100000 - 60000 ∧
      (find_item (handle_garbage_collection [QueueItem.mk 1 7 95000 true 0 0] 100000) 1).map
          QueueItem.handling = some true := by
  decide

/-- Claim C6 (amended): in a GC tick at time `now` over a store with distinct
ids, every item with `handling = true` and `scheduled_start_timestamp ≤
now − 60 000 ms` is reset to `handling = false` (its revision advances), and
every other item is left untouched; staleness is keyed on
`scheduled_start_timestamp`, not on a last-update timestamp. Moreover a
write conflict on one stuck item does not stop the loop: the conflicting
iteration leaves the store exactly as it was, and every remaining stuck item
whose snapshot is still current ends the tick reset to `handling = false`. -/
theorem C6_gc_reset_amended (s : Store) (now : Int) :
    (uniqueIds s → ∀ id,
      find_item (handle_garbage_collection s now) id =
        (find_item s id).map (fun it =>
          if it.handling = true ∧ it.scheduled_start_timestamp ≤ now - 60000 then
            { it with handling := false, revision := it.revision + 1 }
          else it)) ∧
    (∀ (c : QueueItem) (l2 : List QueueItem) (s2 : Store) (e : DBError),
      add_or_update s2 { c with handling := false } = .error e →
      (c :: l2).foldl gc_step s2 = l2.foldl gc_step s2 ∧
        ((∀ it ∈ l2, find_item s2 it.id = some it) →
          l2.Pairwise (fun a b => a.id ≠ b.id) →
          ∀ it ∈ l2, find_item ((c :: l2).foldl gc_step s2) it.id =
            some { it with handling := false, revision := it.revision + 1 })) := by
  constructor
  case right =>
    intro c l2 s2 e herr
    have hskip : (c :: l2).foldl gc_step s2 = l2.foldl gc_step s2 := by
      rw [List.foldl_cons, gc_step_err herr]
    refine ⟨hskip, ?_⟩
    intro hvalid hdist it hm
    rw [hskip]
    exact gc_fold_effect l2 s2 hvalid hdist it hm
  case left =>
  intro hu id
  have hpred : ∀ it : QueueItem, stuck_pred now it = true ↔
      (it.handling = true ∧ it.scheduled_start_timestamp ≤ now - 60000) := by
    intro it
    unfold stuck_pred append_milliseconds_to_time EXECUTION_SCHEDUELING_TIMEOUT_THRESHOLD_MS
    constructor
    · intro h
      simp only [Bool.and_eq_true, decide_eq_true_eq] at h
      refine ⟨h.1, ?_⟩
      have := h.2
      linarith
    · intro h
      simp only [Bool.and_eq_true, decide_eq_true_eq]
      refine ⟨h.1, ?_⟩
      have := h.2
      linarith
  unfold handle_garbage_collection
  cases hf : find_item s id with
  | none =>
    have hnone : ∀ it ∈ s, it.id ≠ id := find_item_eq_none.mp hf
    rw [gc_fold_frame _ _ _ (fun it hm => hnone it (List.mem_filter.mp hm).1), hf]
    rfl
  | some cur =>
    obtain ⟨hcur_mem, hcur_id⟩ := find_item_mem hf
    subst hcur_id
    by_cases hstuck : stuck_pred now cur = true
    · have hvalid : ∀ it ∈ s.filter (stuck_pred now), find_item s it.id = some it :=
        fun it hm => mem_find_of_unique hu (List.mem_filter.mp hm).1
      have hdist : (s.filter (stuck_pred now)).Pairwise (fun a b => a.id ≠ b.id) :=
        List.Pairwise.sublist (List.filter_sublist s) hu
      have hcin : cur ∈ s.filter (stuck_pred now) := List.mem_filter.mpr ⟨hcur_mem, hstuck⟩
      have heff := gc_fold_effect _ s hvalid hdist cur hcin
      rw [heff]
      simp [(hpred cur).mp hstuck]
    · have hframe : ∀ it ∈ s.filter (stuck_pred now), it.id ≠ cur.id := by
        intro it hm hcontra
        have h1 := List.mem_filter.mp hm
        have heq : it = cur := unique_mem_eq hu h1.1 hcur_mem hcontra
        rw [heq] at h1
        exact hstuck h1.2
      rw [gc_fold_frame _ _ _ hframe, hf]
      have hnp : ¬(cur.handling = true ∧ cur.scheduled_start_timestamp ≤ now - 60000) :=
        fun hc => hstuck ((hpred cur).mpr hc)
      simp [hnp]

/-- Claim C6, witness: a two-item store where the stale item (timestamp 0,
handling) is reset by the GC tick at time 100 000 and the fresh item is left
alone; and a concrete conflicting iteration (stale snapshot of item 1, whose
stored revision is 5) is skipped while the remaining stuck item 2 still gets
reset. -/
theorem C6_gc_reset_witness :
    find_item
        (handle_garbage_collection
          [QueueItem.mk 1 7 0 true 0 0, QueueItem.mk 2 8 95000 true 0 0] 100000) 1 =
      (find_item [QueueItem.mk 1 7 0 true 0 0, QueueItem.mk 2 8 95000 true 0 0] 1).map
        (fun it =>
          if it.handling = true ∧ it.scheduled_start_timestamp ≤ 100000 - 60000 then
            { it with handling := false, revision := it.revision + 1 }
          else it) ∧
      find_item
          ((QueueItem.mk 1 7 0 true 0 0 :: [QueueItem.mk 2 8 0 true 0 0]).foldl gc_step
            [QueueItem.mk 1 7 0 true 0 5, QueueItem.mk 2 8 0 true 0 0]) 2 =
        some (QueueItem.mk 2 8 0 false 0 1) :=
  ⟨(C6_gc_reset_amended [QueueItem.mk 1 7 0 true 0 0, QueueItem.mk 2 8 95000 true 0 0]
      100000).1 (by decide) 1,
   ((C6_gc_reset_amended [QueueItem.mk 1 7 0 true 0 0, QueueItem.mk 2 8 95000 true 0 0]
      100000).2 (QueueItem.mk 1 7 0 true 0 0) [QueueItem.mk 2 8 0 true 0 0]
      [QueueItem.mk 1 7 0 true 0 5, QueueItem.mk 2 8 0 true 0 0] .writeConflict rfl).2
      (by decide) (by decide) (QueueItem.mk 2 8 0 true 0 0) (by decide)⟩

theorem get_next_execution_eq_some {s : Store} {now : Int} {it : QueueItem}
    (hq : query_ready s now = some it) :
    get_next_execution s now =
      match add_or_update s { it with handling := true } with
      | .ok s2 => (some { it with handling := true }, s2)
      | .error _ => (none, s) := by
  unfold get_next_execution
  rw [hq]

/-- Claim C5: the claim-loop query returns a stored item with `handling=false`
and `scheduled_start_timestamp ≤ now` that is minimal among all such items
(soundness and minimality); it returns `none` exactly when no stored item
qualifies — in particular, whenever some item does qualify, the query returns
one (completeness), so together with minimality it returns the item with the
smallest `scheduled_start_timestamp`. -/
theorem C5_query_ready_spec (s : Store) (now : Int) :
    (∀ it, query_ready s now = some it →
      it ∈ s ∧ it.handling = false ∧ it.scheduled_start_timestamp ≤ now ∧
        ∀ y ∈ s, y.handling = false → y.scheduled_start_timestamp ≤ now →
          it.scheduled_start_timestamp ≤ y.scheduled_start_timestamp) ∧
    ((∀ it ∈ s, it.handling = true ∨ now < it.scheduled_start_timestamp) →
      query_ready s now = none) ∧
    (query_ready s now = none →
      ∀ it ∈ s, it.handling = true ∨ now < it.scheduled_start_timestamp) ∧
    (∀ it ∈ s, it.handling = false → it.scheduled_start_timestamp ≤ now →
      ∃ r, query_ready s now = some r) := by
  refine ⟨?_, ?_, query_ready_none, ?_⟩
  · intro it h
    exact query_ready_mem h
  · intro hnq
    cases hq : query_ready s now with
    | none => rfl
    | some it =>
      obtain ⟨hm, hh, hts, _⟩ := query_ready_mem hq
      rcases hnq it hm with h1 | h1
      · rw [hh] at h1
        cases h1
      · exact absurd hts (not_le.mpr h1)
  · intro it hm hh hts
    cases hq : query_ready s now with
    | some r => exact ⟨r, rfl⟩
    | none =>
      exfalso
      rcases query_ready_none hq it hm with h1 | h1
      · rw [hh] at h1
        cases h1
      · exact absurd hts (not_le.mpr h1)

/-- Claim C5, witness: on a two-item store the query returns the earlier
eligible item, and it qualifies and is minimal. -/
theorem C5_query_ready_witness :
    QueueItem.mk 1 7 5 false 0 0 ∈
        ([QueueItem.mk 2 8 9 false 0 0, QueueItem.mk 1 7 5 false 0 0] : Store) ∧
      (QueueItem.mk 1 7 5 false 0 0).handling = false ∧
      (QueueItem.mk 1 7 5 false 0 0).scheduled_start_timestamp ≤ 10 ∧
      ∀ y ∈ ([QueueItem.mk 2 8 9 false 0 0, QueueItem.mk 1 7 5 false 0 0] : Store),
        y.handling = false → y.scheduled_start_timestamp ≤ 10 →
          (QueueItem.mk 1 7 5 false 0 0).scheduled_start_timestamp ≤
            y.scheduled_start_timestamp :=
  (C5_query_ready_spec [QueueItem.mk 2 8 9 false 0 0, QueueItem.mk 1 7 5 false 0 0] 10).1
    (QueueItem.mk 1 7 5 false 0 0) (by decide)

/-- Claim C3: claiming the queried item by flipping `handling` to true through
the CAS either fails — necessarily with a write conflict, returning no item,
spawning no worker and leaving the store unchanged — or succeeds, in which
case the item is handed on and a second CAS on the same revision can only fail
with a write conflict. -/
theorem C3_claim_cas (s : Store) (now : Int) (it : QueueItem)
    (hq : query_ready s now = some it) :
    (∀ e, add_or_update s { it with handling := true } = .error e →
      e = .writeConflict ∧ get_next_execution s now = (none, s) ∧
        run_tick_spawns s now = false) ∧
    (∀ s2, add_or_update s { it with handling := true } = .ok s2 →
      (get_next_execution s now).1 = some { it with handling := true } ∧
        add_or_update s2 { it with handling := true } = .error .writeConflict) := by
  constructor
  · intro e he
    have hgne : get_next_execution s now = (none, s) := by
      rw [get_next_execution_eq_some hq, he]
    have he' : e = .writeConflict := by
      rcases add_or_update_cases s { it with handling := true } with ⟨s2, hok⟩ | herr
      · rw [hok] at he
        cases he
      · rw [herr] at he
        injection he with h
        exact h.symm
    refine ⟨he', hgne, ?_⟩
    unfold run_tick_spawns
    rw [hgne]
    rfl
  · intro s2 hok
    have hfind := add_or_update_ok_find_self hok
    refine ⟨?_, ?_⟩
    · rw [get_next_execution_eq_some hq, hok]
    · exact add_or_update_conflict hfind (by simp)

/-- Claim C3, witness: on a one-item store the claim CAS succeeds, the claimed
item is handed on, and replaying the same CAS against the updated store fails
with a write conflict. -/
theorem C3_claim_cas_witness :
    (get_next_execution [QueueItem.mk 1 7 0 false 0 0] 5).1 =
        some (QueueItem.mk 1 7 0 true 0 0) ∧
      add_or_update [QueueItem.mk 1 7 0 true 0 1] (QueueItem.mk 1 7 0 true 0 0) =
        .error .writeConflict :=
  (C3_claim_cas [QueueItem.mk 1 7 0 false 0 0] 5 (QueueItem.mk 1 7 0 false 0 0)
    (by decide)).2 [QueueItem.mk 1 7 0 true 0 1] rfl

/-- Claim C9: whenever `_get_next_execution` hands an item to the claim loop,
the returned item has `handling=true` and the CAS has durably stored
`handling=true` for that id in the queue. -/
theorem C9_claimed_durably (s : Store) (now : Int) (it : QueueItem) (s2 : Store)
    (h : get_next_execution s now = (some it, s2)) :
    it.handling = true ∧ (find_item s2 it.id).map QueueItem.handling = some true := by
  cases hq : query_ready s now with
  | none =>
    rw [get_next_execution] at h
    rw [hq] at h
    simp at h
  | some q =>
    rw [get_next_execution_eq_some hq] at h
    cases hw : add_or_update s { q with handling := true } with
    | ok s3 =>
      rw [hw] at h
      have h1 : some { q with handling := true } = some it := congrArg Prod.fst h
      have h2 : s3 = s2 := congrArg Prod.snd h
      have h3 : { q with handling := true } = it := Option.some.inj h1
      subst h3
      subst h2
      refine ⟨rfl, ?_⟩
      have hself : find_item s3 ({ q with handling := true } : QueueItem).id =
          some { q with handling := true, revision := q.revision + 1 } :=
        add_or_update_ok_find_self hw
      rw [hself]
      rfl
    | error e =>
      rw [hw] at h
      simp at h

/-- Claim C9, witness: on a one-item store the returned item and the stored
item both carry `handling=true` after the claim. -/
theorem C9_claimed_durably_witness :
    (QueueItem.mk 1 7 0 true 0 0).handling = true ∧
      (find_item [QueueItem.mk 1 7 0 true 0 1] (QueueItem.mk 1 7 0 true 0 0).id).map
        QueueItem.handling = some true :=
  C9_claimed_durably [QueueItem.mk 1 7 0 false 0 0] 5 (QueueItem.mk 1 7 0 true 0 0)
    [QueueItem.mk 1 7 0 true 0 1] (by decide)

theorem apply_pre_run_delayed_ok {la0 : LiveAction} {policies : LiveAction → LiveAction}
    {item : QueueItem} {now : Int} {qs qs2 : Store}
    (hst : (policies la0).status = .policy_delayed)
    (hok : add_or_update qs (reschedule_item item now) = .ok qs2) :
    apply_pre_run la0 item now qs policies =
      ⟨none, qs2,
        [Event.updateStatus (policies la0).id .delayed false,
         Event.queueWrite item.id false]⟩ := by
  unfold apply_pre_run
  rw [if_pos hst, hok]

theorem apply_pre_run_delayed_err {la0 : LiveAction} {policies : LiveAction → LiveAction}
    {item : QueueItem} {now : Int} {qs : Store} {e : DBError}
    (hst : (policies la0).status = .policy_delayed)
    (herr : add_or_update qs (reschedule_item item now) = .error e) :
    apply_pre_run la0 item now qs policies =
      ⟨none, qs, [Event.updateStatus (policies la0).id .delayed false]⟩ := by
  unfold apply_pre_run
  rw [if_pos hst, herr]

theorem apply_pre_run_terminal {la0 : LiveAction} {policies : LiveAction → LiveAction}
    {item : QueueItem} {now : Int} {qs : Store}
    (hst : ¬(policies la0).status = .policy_delayed)
    (hterm : (policies la0).status ∈ LIVEACTION_COMPLETED_STATES ∨
      (policies la0).status ∈ LIVEACTION_CANCEL_STATES) :
    apply_pre_run la0 item now qs policies =
      ⟨none, queue_delete qs item, [Event.queueDelete item.id]⟩ := by
  unfold apply_pre_run
  rw [if_neg hst, if_pos hterm]

theorem apply_pre_run_pass {la0 : LiveAction} {policies : LiveAction → LiveAction}
    {item : QueueItem} {now : Int} {qs : Store}
    (hst : ¬(policies la0).status = .policy_delayed)
    (hterm : ¬((policies la0).status ∈ LIVEACTION_COMPLETED_STATES ∨
      (policies la0).status ∈ LIVEACTION_CANCEL_STATES)) :
    apply_pre_run la0 item now qs policies = ⟨some (policies la0), qs, []⟩ := by
  unfold apply_pre_run
  rw [if_neg hst, if_neg hterm]

theorem handle_execution_pre_none {la0 : LiveAction} {policies : LiveAction → LiveAction}
    {item : QueueItem} {now : Int} {qs qs1 : Store} {evs1 : List Event}
    (hpre : apply_pre_run la0 item now qs policies = ⟨none, qs1, evs1⟩) :
    handle_execution (some la0) policies item now qs = ⟨qs1, evs1, none⟩ := by
  unfold handle_execution
  simp only [hpre]

theorem handle_execution_runnable {la0 la : LiveAction} {policies : LiveAction → LiveAction}
    {item : QueueItem} {now : Int} {qs qs1 : Store} {evs1 : List Event}
    (hpre : apply_pre_run la0 item now qs policies = ⟨some la, qs1, evs1⟩)
    (hrun : la.status ∈ valid_status) :
    handle_execution (some la0) policies item now qs =
      ⟨(update_to_scheduled la item qs1).store,
        evs1 ++ [] ++ (update_to_scheduled la item qs1).events, none⟩ := by
  unfold handle_execution
  simp only [hpre, is_execution_queue_item_runnable, if_pos hrun]

theorem handle_execution_not_runnable {la0 la : LiveAction} {policies : LiveAction → LiveAction}
    {item : QueueItem} {now : Int} {qs qs1 : Store} {evs1 : List Event}
    (hpre : apply_pre_run la0 item now qs policies = ⟨some la, qs1, evs1⟩)
    (hrun : la.status ∉ valid_status) :
    handle_execution (some la0) policies item now qs =
      ⟨queue_delete qs1 item, evs1 ++ [Event.queueDelete item.id], none⟩ := by
  unfold handle_execution
  simp only [hpre, is_execution_queue_item_runnable, if_neg hrun]

theorem valid_not_policy_delayed :
    ∀ st ∈ valid_status, st ≠ LAStatus.policy_delayed := by
  decide

theorem valid_not_terminal :
    ∀ st ∈ valid_status,
      ¬(st ∈ LIVEACTION_COMPLETED_STATES ∨ st ∈ LIVEACTION_CANCEL_STATES) := by
  decide

theorem drop_status_not_policy_delayed :
    ∀ st : LAStatus,
      (st ∈ LIVEACTION_COMPLETED_STATES ∨ st ∈ LIVEACTION_CANCEL_STATES ∨
        (st ∉ valid_status ∧ st ≠ .policy_delayed)) →
      st ≠ LAStatus.policy_delayed := by
  decide

/-- Claim C10: when `_apply_pre_run` hands a live-action back, the queue store
is untouched (no write, no delete, no events), the returned live-action is the
policies' output and its status is neither `policy_delayed` nor in the
completed/cancel sets; a `none` return happens only on the policy-delay or
terminal-drop branches. -/
theorem C10_pre_run_frame (la0 : LiveAction) (policies : LiveAction → LiveAction)
    (item : QueueItem) (now : Int) (qs : Store) :
    (∀ la, (apply_pre_run la0 item now qs policies).liveaction = some la →
      (apply_pre_run la0 item now qs policies).store = qs ∧
        (apply_pre_run la0 item now qs policies).events = [] ∧
        la = policies la0 ∧
        la.status ≠ .policy_delayed ∧
        la.status ∉ LIVEACTION_COMPLETED_STATES ∧
        la.status ∉ LIVEACTION_CANCEL_STATES) ∧
    ((apply_pre_run la0 item now qs policies).liveaction = none →
      (policies la0).status = .policy_delayed ∨
        (policies la0).status ∈ LIVEACTION_COMPLETED_STATES ∨
        (policies la0).status ∈ LIVEACTION_CANCEL_STATES) := by
  by_cases hst : (policies la0).status = .policy_delayed
  · rcases add_or_update_cases qs (reschedule_item item now) with ⟨qs2, hok⟩ | herr
    · rw [apply_pre_run_delayed_ok hst hok]
      exact ⟨fun la h => Option.noConfusion h, fun _ => Or.inl hst⟩
    · rw [apply_pre_run_delayed_err hst herr]
      exact ⟨fun la h => Option.noConfusion h, fun _ => Or.inl hst⟩
  · by_cases hterm : (policies la0).status ∈ LIVEACTION_COMPLETED_STATES ∨
        (policies la0).status ∈ LIVEACTION_CANCEL_STATES
    · rw [apply_pre_run_terminal hst hterm]
      exact ⟨fun la h => Option.noConfusion h, fun _ => Or.inr hterm⟩
    · rw [apply_pre_run_pass hst hterm]
      constructor
      · intro la h
        have hla : policies la0 = la := Option.some.inj h
        subst hla
        exact ⟨rfl, rfl, rfl, hst, fun hc => hterm (Or.inl hc), fun hc => hterm (Or.inr hc)⟩
      · intro h
        exact Option.noConfusion h

/-- Claim C10, witness: with identity policies and a `requested` live-action,
the pre-run pass returns the live-action and leaves the store and event trace
empty. -/
theorem C10_pre_run_frame_witness :
    (apply_pre_run (LiveAction.mk 7 .requested) (QueueItem.mk 1 7 0 true 0 0) 5
        [QueueItem.mk 1 7 0 true 0 0] (fun la => la)).store = [QueueItem.mk 1 7 0 true 0 0] ∧
      (apply_pre_run (LiveAction.mk 7 .requested) (QueueItem.mk 1 7 0 true 0 0) 5
        [QueueItem.mk 1 7 0 true 0 0] (fun la => la)).events = [] ∧
      LiveAction.mk 7 .requested = LiveAction.mk 7 .requested ∧
      (LiveAction.mk 7 .requested).status ≠ .policy_delayed ∧
      (LiveAction.mk 7 .requested).status ∉ LIVEACTION_COMPLETED_STATES ∧
      (LiveAction.mk 7 .requested).status ∉ LIVEACTION_CANCEL_STATES :=
  (C10_pre_run_frame (LiveAction.mk 7 .requested) (fun la => la)
    (QueueItem.mk 1 7 0 true 0 0) 5 [QueueItem.mk 1 7 0 true 0 0]).1
    (LiveAction.mk 7 .requested) rfl

/-- Claim C1, counterexample: a claimed item (handling=true) rescheduled by the
policy-delayed branch at time 1000 is stored with `scheduled_start_timestamp =
2500` but `handling` is still `true` — the code never resets `handling` to
`false` on this path. -/
theorem C1_policy_delay_counterexample :
    (find_item
        (handle_execution (some (LiveAction.mk 7 LAStatus.requested))
          (fun la => { la with status := LAStatus.policy_delayed })
          (QueueItem.mk 1 7 0 true 0 0) 1000 [QueueItem.mk 1 7 0 true 0 0]).store 1).map
        QueueItem.scheduled_start_timestamp = some 2500 ∧
      (find_item
        (handle_execution (some (LiveAction.mk 7 LAStatus.requested))
          (fun la => { la with status := LAStatus.policy_delayed })
          (QueueItem.mk 1 7 0 true 0 0) 1000 [QueueItem.mk 1 7 0 true 0 0]).store 1).map
        QueueItem.handling = some true := by
  decide

/-- Claim C1 (amended): after a `policy_delayed` pass at time `now` whose CAS
write succeeds, the live-action is set to `delayed` with publish=false, the
item is rewritten with `scheduled_start_timestamp = now + 1500 ms` (hence ≥
now + 1500 ms) and its `handling` flag left unchanged (it stays `true` for a
claimed item; the GC loop is relied on to release it), and the item is neither
deleted nor dispatched (no publish, no delete, no exception). -/
theorem C1_policy_delay_reschedule (la0 : LiveAction) (policies : LiveAction → LiveAction)
    (item : QueueItem) (now : Int) (qs : Store) (cur : QueueItem)
    (hst : (policies la0).status = .policy_delayed)
    (hfind : find_item qs item.id = some cur)
    (hrev : cur.revision = item.revision) :
    (handle_execution (some la0) policies item now qs).raised = none ∧
      Event.updateStatus (policies la0).id .delayed false ∈
        (handle_execution (some la0) policies item now qs).events ∧
      (∀ lid st, Event.publishStatus lid st ∉
        (handle_execution (some la0) policies item now qs).events) ∧
      (∀ iid, Event.queueDelete iid ∉
        (handle_execution (some la0) policies item now qs).events) ∧
      find_item (handle_execution (some la0) policies item now qs).store item.id =
        some { item with
          scheduled_start_timestamp := now + 1500, revision := item.revision + 1 } ∧
      (find_item (handle_execution (some la0) policies item now qs).store item.id).map
        QueueItem.handling = some item.handling := by
  have hok : add_or_update qs (reschedule_item item now) =
      .ok (replace_by_id qs
        { reschedule_item item now with revision := (reschedule_item item now).revision + 1 }) :=
    add_or_update_of_match hfind hrev
  have hexec := handle_execution_pre_none (apply_pre_run_delayed_ok hst hok)
  rw [hexec]
  have hfind2 : find_item
      (replace_by_id qs
        { reschedule_item item now with revision := (reschedule_item item now).revision + 1 })
      item.id =
      some { item with
        scheduled_start_timestamp := now + 1500, revision := item.revision + 1 } :=
    add_or_update_ok_find_self hok
  refine ⟨rfl, by simp, ?_, ?_, hfind2, ?_⟩
  · intro lid st h
    simp at h
  · intro iid h
    simp at h
  · rw [hfind2]
    rfl

/-- Claim C1, witness: concrete run of the amended claim — item rescheduled to
2500, handling preserved (true), no publish, no delete. -/
theorem C1_policy_delay_witness :
    (handle_execution (some (LiveAction.mk 7 LAStatus.requested))
        (fun la => { la with status := LAStatus.policy_delayed })
        (QueueItem.mk 1 7 0 true 0 0) 1000 [QueueItem.mk 1 7 0 true 0 0]).raised = none ∧
      Event.updateStatus 7 .delayed false ∈
        (handle_execution (some (LiveAction.mk 7 LAStatus.requested))
          (fun la => { la with status := LAStatus.policy_delayed })
          (QueueItem.mk 1 7 0 true 0 0) 1000 [QueueItem.mk 1 7 0 true 0 0]).events ∧
      (∀ lid st, Event.publishStatus lid st ∉
        (handle_execution (some (LiveAction.mk 7 LAStatus.requested))
          (fun la => { la with status := LAStatus.policy_delayed })
          (QueueItem.mk 1 7 0 true 0 0) 1000 [QueueItem.mk 1 7 0 true 0 0]).events) ∧
      (∀ iid, Event.queueDelete iid ∉
        (handle_execution (some (LiveAction.mk 7 LAStatus.requested))
          (fun la => { la with status := LAStatus.policy_delayed })
          (QueueItem.mk 1 7 0 true 0 0) 1000 [QueueItem.mk 1 7 0 true 0 0]).events) ∧
      find_item (handle_execution (some (LiveAction.mk 7 LAStatus.requested))
          (fun la => { la with status := LAStatus.policy_delayed })
          (QueueItem.mk 1 7 0 true 0 0) 1000 [QueueItem.mk 1 7 0 true 0 0]).store 1 =
        some (QueueItem.mk 1 7 2500 true 0 1) ∧
      (find_item (handle_execution (some (LiveAction.mk 7 LAStatus.requested))
          (fun la => { la with status := LAStatus.policy_delayed })
          (QueueItem.mk 1 7 0 true 0 0) 1000 [QueueItem.mk 1 7 0 true 0 0]).store 1).map
        QueueItem.handling = some true :=
  C1_policy_delay_reschedule (LiveAction.mk 7 LAStatus.requested)
    (fun la => { la with status := LAStatus.policy_delayed })
    (QueueItem.mk 1 7 0 true 0 0) 1000 [QueueItem.mk 1 7 0 true 0 0]
    (QueueItem.mk 1 7 0 true 0 0) rfl rfl rfl

/-- Claim C4: a dispatch whose live-action lookup misses deletes the queue
item, publishes nothing (the event trace is empty), re-raises the `notFound`
error to the instrumentation wrapper, and the item can never be returned by a
later claim-loop query. -/
theorem C4_not_found_cleanup (policies : LiveAction → LiveAction) (item : QueueItem)
    (now : Int) (qs : Store) :
    (handle_execution none policies item now qs).raised = some .notFound ∧
      (handle_execution none policies item now qs).events = [] ∧
      find_item (handle_execution none policies item now qs).store item.id = none ∧
      ∀ now2 it2, query_ready (handle_execution none policies item now qs).store now2 =
        some it2 → it2.id ≠ item.id := by
  refine ⟨rfl, rfl, find_queue_delete_self qs item, ?_⟩
  intro now2 it2 hq
  obtain ⟨hm, _⟩ := query_ready_mem hq
  exact mem_queue_delete hm

/-- Claim C4, witness: on a two-item store, the miss deletes item 1, raises
`notFound`, and a later query returns only the other item. -/
theorem C4_not_found_witness :
    (handle_execution none (fun la => la) (QueueItem.mk 1 7 0 true 0 0) 5
        [QueueItem.mk 1 7 0 true 0 0, QueueItem.mk 2 8 0 false 0 0]).raised =
        some DBError.notFound ∧
      (handle_execution none (fun la => la) (QueueItem.mk 1 7 0 true 0 0) 5
        [QueueItem.mk 1 7 0 true 0 0, QueueItem.mk 2 8 0 false 0 0]).events = [] ∧
      find_item (handle_execution none (fun la => la) (QueueItem.mk 1 7 0 true 0 0) 5
        [QueueItem.mk 1 7 0 true 0 0, QueueItem.mk 2 8 0 false 0 0]).store 1 = none ∧
      (QueueItem.mk 2 8 0 false 0 0).id ≠ (QueueItem.mk 1 7 0 true 0 0).id := by
  have h := C4_not_found_cleanup (fun la => la) (QueueItem.mk 1 7 0 true 0 0) 5
    [QueueItem.mk 1 7 0 true 0 0, QueueItem.mk 2 8 0 false 0 0]
  exact ⟨h.1, h.2.1, h.2.2.1, h.2.2.2 10 (QueueItem.mk 2 8 0 false 0 0) (by decide)⟩

theorem valid_not_updated_is_scheduled :
    ∀ st ∈ valid_status,
      ¬(st = LAStatus.requested ∨ st = LAStatus.delayed) → st = LAStatus.scheduled := by
  decide

/-- Claim C2: on every successful schedule path of the dispatch worker (the
post-policy status is runnable), the event trace publishes a status, deletes
the queue item, and every delete in the trace is preceded by a publish — the
delete never happens without a prior publish. -/
theorem C2_publish_before_delete (la0 : LiveAction) (policies : LiveAction → LiveAction)
    (item : QueueItem) (now : Int) (qs : Store)
    (hrun : (policies la0).status ∈ valid_status) :
    publish_precedes_deletes (handle_execution (some la0) policies item now qs).events =
        true ∧
      Event.publishStatus (policies la0).id .scheduled ∈
        (handle_execution (some la0) policies item now qs).events ∧
      Event.queueDelete item.id ∈
        (handle_execution (some la0) policies item now qs).events := by
  have hst : ¬(policies la0).status = .policy_delayed :=
    valid_not_policy_delayed _ hrun
  have hterm := valid_not_terminal _ hrun
  have hexec : handle_execution (some la0) policies item now qs =
      ⟨(update_to_scheduled (policies la0) item qs).store,
        [] ++ [] ++ (update_to_scheduled (policies la0) item qs).events, none⟩ :=
    handle_execution_runnable (apply_pre_run_pass hst hterm) hrun
  rw [hexec]
  unfold update_to_scheduled
  by_cases hc : (policies la0).status = .requested ∨ (policies la0).status = .delayed
  · rw [if_pos hc]
    exact ⟨rfl, by simp, by simp⟩
  · rw [if_neg hc]
    have hs : (policies la0).status = .scheduled :=
      valid_not_updated_is_scheduled _ hrun hc
    rw [hs]
    exact ⟨rfl, by simp, by simp⟩

/-- Claim C2, witness: happy path on a requested live-action — the publish
precedes the delete in the emitted trace. -/
theorem C2_publish_before_delete_witness :
    publish_precedes_deletes
        (handle_execution (some (LiveAction.mk 7 LAStatus.requested)) (fun la => la)
          (QueueItem.mk 1 7 0 true 0 0) 5 [QueueItem.mk 1 7 0 true 0 0]).events = true ∧
      Event.publishStatus 7 .scheduled ∈
        (handle_execution (some (LiveAction.mk 7 LAStatus.requested)) (fun la => la)
          (QueueItem.mk 1 7 0 true 0 0) 5 [QueueItem.mk 1 7 0 true 0 0]).events ∧
      Event.queueDelete 1 ∈
        (handle_execution (some (LiveAction.mk 7 LAStatus.requested)) (fun la => la)
          (QueueItem.mk 1 7 0 true 0 0) 5 [QueueItem.mk 1 7 0 true 0 0]).events :=
  C2_publish_before_delete (LiveAction.mk 7 LAStatus.requested) (fun la => la)
    (QueueItem.mk 1 7 0 true 0 0) 5 [QueueItem.mk 1 7 0 true 0 0] (by decide)

/-- Claim C7: when the post-policy status is completed/cancelled, or any other
status that is neither runnable nor `policy_delayed`, the dispatch deletes the
queue item and terminates with an event trace containing only that delete — no
status update, no publish, no exception. -/
theorem C7_terminal_drop (la0 : LiveAction) (policies : LiveAction → LiveAction)
    (item : QueueItem) (now : Int) (qs : Store)
    (h : (policies la0).status ∈ LIVEACTION_COMPLETED_STATES ∨
      (policies la0).status ∈ LIVEACTION_CANCEL_STATES ∨
      ((policies la0).status ∉ valid_status ∧ (policies la0).status ≠ .policy_delayed)) :
    (handle_execution (some la0) policies item now qs).events =
        [Event.queueDelete item.id] ∧
      find_item (handle_execution (some la0) policies item now qs).store item.id = none ∧
      (handle_execution (some la0) policies item now qs).raised = none := by
  have hpd := drop_status_not_policy_delayed _ h
  by_cases hterm : (policies la0).status ∈ LIVEACTION_COMPLETED_STATES ∨
      (policies la0).status ∈ LIVEACTION_CANCEL_STATES
  · rw [handle_execution_pre_none (apply_pre_run_terminal hpd hterm)]
    exact ⟨rfl, find_queue_delete_self qs item, rfl⟩
  · have hnv : (policies la0).status ∉ valid_status := by
      rcases h with h1 | h1 | ⟨h1, _⟩
      · exact absurd (Or.inl h1) hterm
      · exact absurd (Or.inr h1) hterm
      · exact h1
    rw [handle_execution_not_runnable (apply_pre_run_pass hpd hterm) hnv]
    exact ⟨rfl, find_queue_delete_self qs item, rfl⟩

/-- Claim C7, witness: a `running` live-action (not runnable, not terminal,
not policy-delayed) gets its queue item deleted with a delete-only trace. -/
theorem C7_terminal_drop_witness :
    (handle_execution (some (LiveAction.mk 7 LAStatus.running)) (fun la => la)
        (QueueItem.mk 1 7 0 true 0 0) 5 [QueueItem.mk 1 7 0 true 0 0]).events =
        [Event.queueDelete 1] ∧
      find_item (handle_execution (some (LiveAction.mk 7 LAStatus.running)) (fun la => la)
        (QueueItem.mk 1 7 0 true 0 0) 5 [QueueItem.mk 1 7 0 true 0 0]).store 1 = none ∧
      (handle_execution (some (LiveAction.mk 7 LAStatus.running)) (fun la => la)
        (QueueItem.mk 1 7 0 true 0 0) 5 [QueueItem.mk 1 7 0 true 0 0]).raised = none :=
  C7_terminal_drop (LiveAction.mk 7 LAStatus.running) (fun la => la)
    (QueueItem.mk 1 7 0 true 0 0) 5 [QueueItem.mk 1 7 0 true 0 0]
    (Or.inr (Or.inr (by decide)))

/-- Count of `publishStatus` events in a trace. -/
def publish_count (evs : List Event) : Nat :=
  evs.countP (fun e =>
    match e with
    | .publishStatus _ _ => true
    | _ => false)

/-- Claim C8: `_update_to_scheduled` emits the `scheduled` status update
(publish=false) exactly when the live-action status is `requested` or
`delayed`; when the status is already `scheduled` no update event at all is
emitted; and exactly one `publishStatus` is emitted in every case. -/
theorem C8_update_iff_publish_once (la : LiveAction) (item : QueueItem) (qs : Store) :
    ((la.status = .requested ∨ la.status = .delayed) ↔
      Event.updateStatus la.id .scheduled false ∈ (update_to_scheduled la item qs).events) ∧
      publish_count (update_to_scheduled la item qs).events = 1 ∧
      (la.status = .scheduled →
        ∀ lid st b, Event.updateStatus lid st b ∉ (update_to_scheduled la item qs).events) := by
  unfold update_to_scheduled
  by_cases hc : la.status = .requested ∨ la.status = .delayed
  · rw [if_pos hc]
    refine ⟨⟨fun _ => by simp, fun _ => hc⟩, rfl, ?_⟩
    intro hs
    rcases hc with h | h <;> rw [hs] at h <;> cases h
  · rw [if_neg hc]
    refine ⟨⟨fun h => absurd h hc, ?_⟩, rfl, ?_⟩
    · intro hmem
      simp at hmem
    · intro _ lid st b hmem
      simp at hmem

/-- Claim C8, witness: for a `requested` live-action the update event is
emitted and exactly one publish occurs; extracted from the claim theorem at a
concrete input. -/
theorem C8_update_iff_publish_once_witness :
    Event.updateStatus 7 .scheduled false ∈
        (update_to_scheduled (LiveAction.mk 7 LAStatus.requested)
          (QueueItem.mk 1 7 0 true 0 0) [QueueItem.mk 1 7 0 true 0 0]).events ∧
      publish_count (update_to_scheduled (LiveAction.mk 7 LAStatus.requested)
        (QueueItem.mk 1 7 0 true 0 0) [QueueItem.mk 1 7 0 true 0 0]).events = 1 :=
  ⟨(C8_update_iff_publish_once (LiveAction.mk 7 LAStatus.requested)
      (QueueItem.mk 1 7 0 true 0 0) [QueueItem.mk 1 7 0 true 0 0]).1.mp (Or.inl rfl),
   (C8_update_iff_publish_once (LiveAction.mk 7 LAStatus.requested)
      (QueueItem.mk 1 7 0 true 0 0) [QueueItem.mk 1 7 0 true 0 0]).2.1⟩
